import Mathlib

/-!
Verification of the AOO client session core (sonobus dependency).

The public contract is the interface in `src/deps/aoo/include/aoo/aoo_client.hpp`.
That file declares the operations (connect, disconnect, joinGroup, leaveGroup,
getPeerByName, getPeerById, getPeerByAddress, sendMessage, pollEvents,
sendRequest, sendCustomRequest) but, except for `sendCustomRequest`, contains
only pure-virtual declarations; the behavioural components (Peer Directory,
Session State Machine, Request Tracker, Event Queue, Message Router) are
modelled here from the specification of the session core.
-/

/-! ## Data model: identities, endpoints, peers -/

/-- Modelled from the spec: an Identity is (groupId, userId, groupName,
userName); ids are server-assigned. The `getPeerBy*` functions in
`aoo_client.hpp` use `AooId` (an integer that admits the sentinel
`kAooIdInvalid`), so ids are `Int`. -/
structure Identity where
  groupId : Int
  userId : Int
  groupName : String
  userName : String
deriving DecidableEq

/-- Modelled from the spec: transport address (host, port) plus an optional
relay address. -/
structure Endpoint where
  host : String
  port : Nat
  relay : Option (String × Nat)
deriving DecidableEq

/-- Modelled from the spec: peer membership state. -/
inductive PeerState where
  | joining
  | active
  | leaving
deriving DecidableEq

/-- Modelled from the spec: a Peer owns one Identity, one Endpoint, opaque
metadata and a membership state. -/
structure Peer where
  ident : Identity
  ep : Endpoint
  metadata : List Nat
  mstate : PeerState
deriving DecidableEq

/-- Two identities denote the same directory entry when their server-assigned
ids coincide (names may be re-assigned server-side, ids may not). -/
def sameId (a b : Identity) : Bool :=
  a.groupId == b.groupId && a.userId == b.userId

/-! ## Peer Directory

Modelled from the spec: a bidirectional mapping identity ⇄ endpoint ⇄ names
with operations `upsert`, `removeByIdentity` and the three lookups exposed by
`aoo_client.hpp` as `getPeerByName` / `getPeerById` / `getPeerByAddress`.
The hash indexing of the implementation is abstracted as a list searched by
key; the observable lookup results are the same. -/

/-- The Peer Directory state: the collection of live peers. -/
abbrev Directory : Type := List Peer

/-- Modelled from the spec: `upsert(identity, endpoint, metadata)` updates
the entry with the same server-assigned ids in place (latest names, endpoint
and metadata win) or, when the identity is new, inserts a fresh entry. -/
def upsert (d : Directory) (i : Identity) (e : Endpoint) (m : List Nat) :
    Directory :=
  if (List.any d fun p => sameId p.ident i) then
    List.map (fun p => if sameId p.ident i then ⟨i, e, m, .active⟩ else p) d
  else
    d ++ [⟨i, e, m, .active⟩]

/-- Modelled from the spec: `removeByIdentity` removes the entry with the
given server-assigned ids. -/
def removeByIdentity (d : Directory) (i : Identity) : Directory :=
  List.filter (fun p => !(sameId p.ident i)) d

/-- Modelled from the spec: find a peer by its group/user names and return
its endpoint; an absent name pair yields `none` (the `NotFound` outcome). -/
def getPeerByName (d : Directory) (g u : String) : Option Endpoint :=
  (List.find? (fun p => p.ident.groupName == g && p.ident.userName == u) d).map
    (fun p => p.ep)

/-- Modelled from the spec: find a peer by its group/user ids and return its
endpoint. -/
def getPeerById (d : Directory) (g u : Int) : Option Endpoint :=
  (List.find? (fun p => p.ident.groupId == g && p.ident.userId == u) d).map
    (fun p => p.ep)

/-- Modelled from the spec: find a peer by its endpoint address and return
its identity (ids and names). -/
def getPeerByAddress (d : Directory) (e : Endpoint) : Option Identity :=
  (List.find? (fun p => p.ep == e) d).map (fun p => p.ident)

/-! ## Directory well-formedness

The spec guarantees that server-assigned ids are unique, that names are
unique within their namespace at any point in time, and that each peer is
reachable at its own endpoint. `distinctKeys` captures pairwise key
disjointness of two directory entries; `freshFor` is the corresponding
admissibility condition on the inputs of a single `upsert` call. -/

/-- Two directory entries are key-disjoint: different server ids, different
name pairs, different endpoints. -/
def distinctKeys (p q : Peer) : Prop :=
  sameId p.ident q.ident = false ∧
  ¬(p.ident.groupName = q.ident.groupName ∧ p.ident.userName = q.ident.userName) ∧
  p.ep ≠ q.ep

instance (p q : Peer) : Decidable (distinctKeys p q) := by
  unfold distinctKeys; infer_instance

/-- A well-formed directory: all entries pairwise key-disjoint. -/
def WF (d : Directory) : Prop := List.Pairwise distinctKeys d

/-- Admissibility of an `upsert(i, e, _)` call on directory `d`, reflecting
the server-side uniqueness guarantees of the spec: any entry that is not the
one being updated carries a different name pair and a different endpoint. -/
def freshFor (d : Directory) (i : Identity) (e : Endpoint) : Prop :=
  ∀ p ∈ d, sameId p.ident i = false →
    (¬(p.ident.groupName = i.groupName ∧ p.ident.userName = i.userName) ∧ p.ep ≠ e)

instance (d : Directory) (i : Identity) (e : Endpoint) :
    Decidable (freshFor d i e) := by
  unfold freshFor; infer_instance

/-- Directory states reachable from the empty directory by admissible
`upsert` and `removeByIdentity` calls. -/
inductive Reach : Directory → Prop where
  | empty : Reach []
  | upsert {d : Directory} (i : Identity) (e : Endpoint) (m : List Nat) :
      Reach d → freshFor d i e → Reach (upsert d i e m)
  | remove {d : Directory} (i : Identity) :
      Reach d → Reach (removeByIdentity d i)

/-- The three lookup indices agree on every entry of the directory: each peer
resolves to its own endpoint by name and by id, and to its own identity by
address. -/
def IndicesConsistent (d : Directory) : Prop :=
  ∀ p ∈ d,
    getPeerByName d p.ident.groupName p.ident.userName = some p.ep ∧
    getPeerById d p.ident.groupId p.ident.userId = some p.ep ∧
    getPeerByAddress d p.ep = some p.ident

/-- Every successful lookup is backed by an entry of the directory (no
dangling or orphaned mapping). -/
def LookupsSound (d : Directory) : Prop :=
  (∀ g u e, getPeerByName d g u = some e →
    ∃ p ∈ d, p.ident.groupName = g ∧ p.ident.userName = u ∧ p.ep = e) ∧
  (∀ g u e, getPeerById d g u = some e →
    ∃ p ∈ d, p.ident.groupId = g ∧ p.ident.userId = u ∧ p.ep = e) ∧
  (∀ e i, getPeerByAddress d e = some i → ∃ p ∈ d, p.ep = e ∧ p.ident = i)

/-! ## Error codes, results and requests -/

/-- Modelled from the spec: the error taxonomy of the session core. -/
inductive Err where
  | authFailure
  | timeout
  | networkError
  | versionMismatch
  | alreadyInProgress
  | notFound
  | peerNotFound
  | aborted
  | configurationError
  | invalidState
deriving DecidableEq

/-- Modelled from the spec: the value delivered to a request callback, either
success (carrying a server-assigned id where applicable) or an error. -/
inductive NetResult where
  | success (id : Nat)
  | failure (e : Err)
deriving DecidableEq

/-- Modelled from the spec: the synchronous return code of an operation
(`AooError` in the interface): `ok` or a local error. -/
inductive Ret where
  | ok
  | err (e : Err)
deriving DecidableEq

/-- Modelled from the spec: the kind of an outstanding request. -/
inductive ReqKind where
  | connect
  | disconnect
  | groupJoin
  | groupLeave
  | custom
deriving DecidableEq

/-- Modelled from the spec: a PendingRequest is (correlationId, requestKind,
callback, userContext, issuedAt); callbacks and contexts are identified by
opaque numeric tokens. -/
structure PendingReq where
  corrId : Nat
  kind : ReqKind
  cbId : Nat
  ctx : Nat
  issuedAt : Nat
deriving DecidableEq

/-! ## Session State Machine

Modelled from the spec: the connect/disconnect/join/leave lifecycle with
states Disconnected, Connecting, Connected, Disconnecting. Asynchronous
results are delivered as callback invocations recorded in the step output. -/

/-- Modelled from the spec: the SessionState of the client. -/
inductive SessionState where
  | Disconnected
  | Connecting
  | Connected
  | Disconnecting
deriving DecidableEq

/-- The client-side session state: SessionState plus the outstanding
PendingRequests it owns. -/
structure Client where
  state : SessionState
  connectReq : Option PendingReq
  disconnectReq : Option PendingReq
  groupReqs : List PendingReq
  nextCorr : Nat
deriving DecidableEq

/-- The inputs driving the Session State Machine: application calls
(connect, disconnect, joinGroup, leaveGroup) and network-thread stimuli
(server handshake replies, group-operation replies, disconnect completion). -/
inductive Input where
  | connect (cbId ctx now : Nat)
  | serverAccept (clientId : Nat)
  | serverReject (e : Err)
  | disconnect (cbId ctx now : Nat)
  | disconnectDone
  | joinGroup (cbId ctx now : Nat)
  | leaveGroup (cbId ctx now : Nat)
  | groupReply (corrId : Nat) (r : NetResult)
deriving DecidableEq

/-- Outcome of one step of the Session State Machine: the successor client
state, the synchronous return code, and the callback invocations performed
during the step (callback token paired with the delivered result). -/
structure StepOut where
  next : Client
  ret : Ret
  calls : List (Nat × NetResult)
deriving DecidableEq

/-- Modelled from the spec: one transition of the Session State Machine.
connect is accepted only while Disconnected (a second connect fails fast with
AlreadyInProgress); a handshake reply while Connecting moves to Connected on
success and back to Disconnected on failure, firing the stored callback;
disconnect, valid in Connected, cancels every outstanding group operation
with Aborted and enters Disconnecting, reaching Disconnected when the
teardown completes; joinGroup/leaveGroup are valid only in Connected and
file a PendingRequest that a matching groupReply later resolves. -/
def step (c : Client) (i : Input) : StepOut :=
  match i with
  | .connect cb ctx now =>
    match c.state with
    | .Disconnected =>
        ⟨{ c with
             state := .Connecting
             connectReq := some ⟨c.nextCorr, .connect, cb, ctx, now⟩
             nextCorr := c.nextCorr + 1 }, .ok, []⟩
    | _ => ⟨c, .err .alreadyInProgress, []⟩
  | .serverAccept clientId =>
    match c.state with
    | .Connecting =>
        ⟨{ c with state := .Connected, connectReq := none }, .ok,
          match c.connectReq with
          | some r => [(r.cbId, .success clientId)]
          | none => []⟩
    | _ => ⟨c, .ok, []⟩
  | .serverReject e =>
    match c.state with
    | .Connecting =>
        ⟨{ c with state := .Disconnected, connectReq := none }, .ok,
          match c.connectReq with
          | some r => [(r.cbId, .failure e)]
          | none => []⟩
    | _ => ⟨c, .ok, []⟩
  | .disconnect cb ctx now =>
    match c.state with
    | .Connected =>
        ⟨{ c with
             state := .Disconnecting
             groupReqs := []
             disconnectReq := some ⟨c.nextCorr, .disconnect, cb, ctx, now⟩
             nextCorr := c.nextCorr + 1 }, .ok,
          c.groupReqs.map (fun r => (r.cbId, .failure .aborted))⟩
    | _ => ⟨c, .err .invalidState, []⟩
  | .disconnectDone =>
    match c.state with
    | .Disconnecting =>
        ⟨{ c with state := .Disconnected, disconnectReq := none }, .ok,
          match c.disconnectReq with
          | some r => [(r.cbId, .success 0)]
          | none => []⟩
    | _ => ⟨c, .ok, []⟩
  | .joinGroup cb ctx now =>
    match c.state with
    | .Connected =>
        ⟨{ c with
             groupReqs := c.groupReqs ++ [⟨c.nextCorr, .groupJoin, cb, ctx, now⟩]
             nextCorr := c.nextCorr + 1 }, .ok, []⟩
    | _ => ⟨c, .err .invalidState, []⟩
  | .leaveGroup cb ctx now =>
    match c.state with
    | .Connected =>
        ⟨{ c with
             groupReqs := c.groupReqs ++ [⟨c.nextCorr, .groupLeave, cb, ctx, now⟩]
             nextCorr := c.nextCorr + 1 }, .ok, []⟩
    | _ => ⟨c, .err .invalidState, []⟩
  | .groupReply corr r =>
    match c.groupReqs.find? (fun q => q.corrId == corr) with
    | some q =>
        ⟨{ c with groupReqs := c.groupReqs.filter (fun x => !(x.corrId == corr)) },
          .ok, [(q.cbId, r)]⟩
    | none => ⟨c, .ok, []⟩

/-- The initial client: Disconnected, nothing outstanding. -/
def initClient : Client :=
  { state := .Disconnected, connectReq := none, disconnectReq := none,
    groupReqs := [], nextCorr := 0 }

/-- Client states reachable from the initial client by steps. -/
inductive ClientReach : Client → Prop where
  | init : ClientReach initClient
  | step (c : Client) (i : Input) : ClientReach c → ClientReach (step c i).next

/-- The successor of each SessionState along the connection cycle
Disconnected → Connecting → Connected → Disconnecting → Disconnected. -/
def cycleNext : SessionState → SessionState
  | .Disconnected => .Connecting
  | .Connecting => .Connected
  | .Connected => .Disconnecting
  | .Disconnecting => .Disconnected

/-- The transition taken by `step c i` stays put or advances to the next
state of the connection cycle. -/
def FollowsCycle (c : Client) (i : Input) : Prop :=
  (step c i).next.state = c.state ∨ (step c i).next.state = cycleNext c.state

instance (c : Client) (i : Input) : Decidable (FollowsCycle c i) := by
  unfold FollowsCycle; infer_instance

/-! ## Event Queue

Modelled from the spec: a queue of outbound notifications with two delivery
modes fixed at setup; in poll mode events accumulate in FIFO order and
`pollEvents` invokes the registered handler once per queued event, then
clears the queue; in push mode each event is handed to the handler
immediately. Handler invocations are recorded as lists of events. -/

/-- Modelled from the spec: the event delivery mode, fixed at setup. -/
inductive EventMode where
  | poll
  | push
deriving DecidableEq

/-- Modelled from the spec: the tagged event variant. Payloads are reduced to
the identifying data carried by each tag. -/
inductive Event where
  | peerJoin (g u : Int)
  | peerLeave (g u : Int)
  | peerMessage (g u : Int) (payload : List Nat)
  | connectResult (r : NetResult)
  | disconnectResult (r : NetResult)
  | groupJoinResult (r : NetResult)
  | groupLeaveResult (r : NetResult)
  | errorEvent (e : Err)
deriving DecidableEq

/-- The Event Queue state: delivery mode plus the ordered pending events. -/
structure EventQueue where
  mode : EventMode
  queued : List Event
deriving DecidableEq

/-- Modelled from the spec: producing one event. In poll mode it is appended
to the queue; in push mode the handler is invoked immediately (the second
component lists the handler invocations performed by the call). -/
def enqueue (q : EventQueue) (e : Event) : EventQueue × List Event :=
  match q.mode with
  | .poll => ({ q with queued := q.queued ++ [e] }, [])
  | .push => (q, [e])

/-- Modelled from the spec: cheap check for pending events. -/
def eventsAvailable (q : EventQueue) : Bool :=
  !q.queued.isEmpty

/-- Modelled from the spec: `pollEvents` invokes the registered handler once
per queued event in FIFO order (second component), then clears the queue. -/
def pollEvents (q : EventQueue) : EventQueue × List Event :=
  ({ q with queued := [] }, q.queued)

/-- Producing a whole sequence of events, discarding push-mode invocations. -/
def enqueueAll (q : EventQueue) (es : List Event) : EventQueue :=
  es.foldl (fun q e => (enqueue q e).1) q

/-! ## Message Router

Modelled from the spec: `sendMessage(group, user, payload, time, flags)`
resolves its destination set against the Peer Directory — a specific peer,
all members of a group (user wildcard), or all known peers (group wildcard) —
and hands each resolved endpoint a delivery. A specific target that does not
resolve fails the whole call with PeerNotFound; wildcard targets simply
deliver to every peer they resolve. -/

/-- The invalid-id sentinel used as the wildcard target (`kAooIdInvalid`). -/
def kAooIdInvalid : Int := -1

/-- One scheduled delivery handed to the external transport. -/
structure Delivery where
  ep : Endpoint
  payload : List Nat
  timeStamp : Nat
deriving DecidableEq

/-- Modelled from the spec: destination resolution and delivery scheduling of
`sendMessage`. Returns the synchronous result together with the deliveries
handed to the transport. -/
def sendMessage (d : Directory) (group user : Int) (payload : List Nat)
    (timeStamp : Nat) : Ret × List Delivery :=
  if group == kAooIdInvalid then
    (.ok, d.map fun p => ⟨p.ep, payload, timeStamp⟩)
  else if user == kAooIdInvalid then
    (.ok, (d.filter fun p => p.ident.groupId == group).map
      fun p => ⟨p.ep, payload, timeStamp⟩)
  else
    match d.find? (fun p => p.ident.groupId == group && p.ident.userId == user) with
    | some p => (.ok, [⟨p.ep, payload, timeStamp⟩])
    | none => (.err .peerNotFound, [])

/-! ## Request Tracker

Modelled from the spec: issues fresh correlation ids, matches replies to
outstanding requests, and expires requests whose deadline passed. Callback
invocations are recorded as (correlationId, callback, result) triples. -/

/-- The Request Tracker state. -/
structure Tracker where
  nextCorr : Nat
  pending : List PendingReq
deriving DecidableEq

/-- Modelled from the spec: `register(kind, callback, context)` issues a
fresh correlation id and files a PendingRequest stamped `now`. -/
def registerReq (t : Tracker) (kind : ReqKind) (cb ctx now : Nat) :
    Tracker × Nat :=
  ({ nextCorr := t.nextCorr + 1,
     pending := t.pending ++ [⟨t.nextCorr, kind, cb, ctx, now⟩] }, t.nextCorr)

/-- Modelled from the spec: `resolve(correlationId, result)` invokes and
removes the matching entry; an unknown or already-resolved correlation id is
a no-op. -/
def resolveReq (t : Tracker) (corr : Nat) (r : NetResult) :
    Tracker × List (Nat × Nat × NetResult) :=
  match t.pending.find? (fun q => q.corrId == corr) with
  | some q =>
      ({ t with pending := t.pending.filter fun x => !(x.corrId == corr) },
        [(q.corrId, q.cbId, r)])
  | none => (t, [])

/-- Modelled from the spec: `expireOlderThan(deadline)` delivers a Timeout
error to the callback of every request issued before the deadline and removes
those requests. -/
def expireOlderThan (t : Tracker) (deadline : Nat) :
    Tracker × List (Nat × Nat × NetResult) :=
  ({ t with pending := t.pending.filter fun q => decide (deadline ≤ q.issuedAt) },
    (t.pending.filter fun q => decide (q.issuedAt < deadline)).map
      fun q => (q.corrId, q.cbId, .failure .timeout))

/-- Tracker states reachable from the empty tracker. -/
inductive TReach : Tracker → Prop where
  | empty : TReach ⟨0, []⟩
  | registerStep (t : Tracker) (kind : ReqKind) (cb ctx now : Nat) :
      TReach t → TReach (registerReq t kind cb ctx now).1
  | resolveStep (t : Tracker) (corr : Nat) (r : NetResult) :
      TReach t → TReach (resolveReq t corr r).1
  | expireStep (t : Tracker) (deadline : Nat) :
      TReach t → TReach (expireOlderThan t deadline).1

/-! ## sendCustomRequest (from the source)

The only non-virtual operation of `aoo_client.hpp` (lines 289-294) builds an
`AooNetRequestCustom` holding the tag `kAooNetRequestCustom`, a zero flag
field and the given data view, and returns the result of forwarding it to
`sendRequest` with the same callback and context and the flags argument 0.
`sendRequest` itself is pure virtual, so it enters the model as an explicit
function argument. -/

/-- An `AooDataView`: a type tag plus an opaque byte payload. -/
structure AooDataView where
  dataType : Int
  bytes : List Nat
deriving DecidableEq

/-- The request kinds of the generic request surface; `kAooNetRequestCustom`
is the tag written by `sendCustomRequest`. -/
inductive NetRequestType where
  | connect
  | disconnect
  | groupJoin
  | groupLeave
  | custom
deriving DecidableEq

/-- The tag placed in the first field of `AooNetRequestCustom`. -/
def kAooNetRequestCustom : NetRequestType := .custom

/-- The `AooNetRequestCustom` structure: type tag, structure flag field,
payload. -/
structure AooNetRequestCustom where
  rtype : NetRequestType
  rflags : Nat
  rdata : AooDataView
deriving DecidableEq

/-- Transcribed from the source: `sendCustomRequest` builds the request
`(kAooNetRequestCustom, 0, data)` and forwards it to `sendRequest` with the
same callback and context and with the flags argument 0. -/
def sendCustomRequest (sendRequest : AooNetRequestCustom → Nat → Nat → Nat → Ret)
    (data : AooDataView) (cb ctx : Nat) : Ret :=
  sendRequest { rtype := kAooNetRequestCustom, rflags := 0, rdata := data } cb ctx 0

/-- Written from the words of the claim: the result of `sendRequest` applied
to a request of kind `kAooNetRequestCustom` carrying the given data, with the
same callback and context and with flags equal to 0. -/
def sendCustomRequestSpec (sendRequest : AooNetRequestCustom → Nat → Nat → Nat → Ret)
    (data : AooDataView) (cb ctx : Nat) : Ret :=
  sendRequest { rtype := kAooNetRequestCustom, rflags := 0, rdata := data } cb ctx 0

/-! ## Concrete inputs used by witnesses -/

/-- A concrete identity. -/
def wIdent : Identity := ⟨1, 2, "g", "alice"⟩

/-- A concrete endpoint. -/
def wEp : Endpoint := ⟨"10.0.0.1", 9000, none⟩

/-- A second concrete endpoint. -/
def wEp2 : Endpoint := ⟨"10.0.0.2", 9001, none⟩

/-- A one-peer directory reached by a single upsert. -/
def wDir : Directory := upsert [] wIdent wEp []

/-- A concrete client sitting in Connecting with its connect attempt
outstanding. -/
def wConnecting : Client :=
  { state := .Connecting, connectReq := some ⟨0, .connect, 5, 6, 7⟩,
    disconnectReq := none, groupReqs := [], nextCorr := 1 }

/-- A concrete client sitting in Connected with three outstanding group
operations. -/
def wConnected3 : Client :=
  { state := .Connected, connectReq := none, disconnectReq := none,
    groupReqs := [⟨0, .groupJoin, 10, 0, 0⟩, ⟨1, .groupJoin, 11, 0, 0⟩,
                  ⟨2, .groupLeave, 12, 0, 0⟩],
    nextCorr := 3 }

/-- A concrete tracker holding one request issued at time 5. -/
def wTracker : Tracker := (registerReq ⟨0, []⟩ .groupJoin 10 0 5).1

/-- The request held by `wTracker`. -/
def wReq : PendingReq := ⟨0, .groupJoin, 10, 0, 5⟩

/-! ## Helper lemmas -/
theorem sameId_iff (a b : Identity) :
    sameId a b = true ↔ (a.groupId = b.groupId ∧ a.userId = b.userId) := by
  simp [sameId]

theorem sameId_symm (a b : Identity) : sameId a b = sameId b a := by
  rw [Bool.eq_iff_iff, sameId_iff, sameId_iff]
  omega

theorem sameId_trans {a b c : Identity} (h1 : sameId a b = true)
    (h2 : sameId b c = true) : sameId a c = true := by
  rw [sameId_iff] at *
  exact ⟨h1.1.trans h2.1, h1.2.trans h2.2⟩

theorem distinctKeys_symm {p q : Peer} (h : distinctKeys p q) : distinctKeys q p := by
  obtain ⟨h1, h2, h3⟩ := h
  refine ⟨?_, ?_, ?_⟩
  · rw [sameId_symm]; exact h1
  · intro ⟨hg, hu⟩; exact h2 ⟨hg.symm, hu.symm⟩
  · exact h3.symm

theorem wf_removeByIdentity {d : Directory} (h : WF d) (i : Identity) :
    WF (removeByIdentity d i) :=
  List.Pairwise.sublist (List.filter_sublist d) h

theorem wf_upsert {d : Directory} (hwf : WF d) {i : Identity} {e : Endpoint}
    (hf : freshFor d i e) (m : List Nat) : WF (upsert d i e m) := by
  unfold WF at hwf ⊢
  unfold upsert
  by_cases hex : (List.any d fun p => sameId p.ident i) = true
  · rw [if_pos hex]
    rw [List.pairwise_map]
    refine List.Pairwise.imp_of_mem ?_ hwf
    intro p q hp hq hpq
    by_cases h1 : sameId p.ident i = true <;> by_cases h2 : sameId q.ident i = true
    · exfalso
      have : sameId p.ident q.ident = true := by
        rw [sameId_symm] at h2
        exact sameId_trans h1 h2
      rw [hpq.1] at this
      exact Bool.false_ne_true this
    · have h2' : sameId q.ident i = false := Bool.eq_false_iff.mpr h2
      obtain ⟨hn, he⟩ := hf q hq h2'
      simp only [h1, if_true, Bool.not_eq_true, h2', if_neg Bool.false_ne_true]
      refine ⟨?_, ?_, ?_⟩
      · rw [sameId_symm]; exact h2'
      · intro ⟨hg, hu⟩; exact hn ⟨hg.symm, hu.symm⟩
      · exact fun hc => he hc.symm
    · have h1' : sameId p.ident i = false := Bool.eq_false_iff.mpr h1
      obtain ⟨hn, he⟩ := hf p hp h1'
      simp only [h2, if_true, Bool.not_eq_true, h1', if_neg Bool.false_ne_true]
      exact ⟨h1', hn, he⟩
    · have h1' : sameId p.ident i = false := Bool.eq_false_iff.mpr h1
      have h2' : sameId q.ident i = false := Bool.eq_false_iff.mpr h2
      simp only [h1', h2', if_neg Bool.false_ne_true]
      exact hpq
  · rw [if_neg hex]
    rw [List.pairwise_append]
    refine ⟨hwf, List.pairwise_singleton _ _, ?_⟩
    intro p hp q hq
    rw [List.mem_singleton] at hq
    subst hq
    have hpi : sameId p.ident i = false := by
      rw [List.any_eq_true] at hex
      cases hb : sameId p.ident i
      · rfl
      · exact absurd ⟨p, hp, hb⟩ hex
    obtain ⟨hn, he⟩ := hf p hp hpi
    exact ⟨hpi, hn, he⟩

theorem wf_of_reach {d : Directory} (h : Reach d) : WF d := by
  induction h with
  | empty => exact List.Pairwise.nil
  | upsert i e m _ hf ih => exact wf_upsert ih hf m
  | remove i _ ih => exact wf_removeByIdentity ih i

theorem find_of_mem_unique {α : Type} {p : α → Bool} {d : List α} {x : α}
    (hx : x ∈ d) (hpx : p x = true)
    (huniq : ∀ y ∈ d, p y = true → y = x) :
    List.find? p d = some x := by
  induction d with
  | nil => cases hx
  | cons a l ih =>
    by_cases ha : p a = true
    · have hax : a = x := huniq a (List.mem_cons_self a l) ha
      rw [List.find?_cons_of_pos _ ha, hax]
    · have hpa : p a = false := Bool.eq_false_iff.mpr ha
      rw [List.find?_cons_of_neg _ ha]
      have hx' : x ∈ l := by
        rcases List.mem_cons.mp hx with h | h
        · exact absurd (h ▸ hpx) ha
        · exact h
      exact ih hx' fun y hy hpy => huniq y (List.mem_cons_of_mem a hy) hpy

theorem pairwise_distinct {d : Directory} (hwf : WF d) {p q : Peer}
    (hp : p ∈ d) (hq : q ∈ d) (hne : q ≠ p) : distinctKeys q p :=
  List.Pairwise.forall (fun _ _ h => distinctKeys_symm h) hwf hq hp hne

theorem consistent_of_wf {d : Directory} (hwf : WF d) : IndicesConsistent d := by
  intro p hp
  refine ⟨?_, ?_, ?_⟩
  · unfold getPeerByName
    rw [find_of_mem_unique hp (by simp) ?_]
    · rfl
    · intro y hy hpy
      by_contra hne
      obtain ⟨-, hn, -⟩ := pairwise_distinct hwf hp hy hne
      rw [Bool.and_eq_true, beq_iff_eq, beq_iff_eq] at hpy
      exact hn hpy
  · unfold getPeerById
    rw [find_of_mem_unique hp (by simp) ?_]
    · rfl
    · intro y hy hpy
      by_contra hne
      obtain ⟨hid, -, -⟩ := pairwise_distinct hwf hp hy hne
      rw [Bool.and_eq_true, beq_iff_eq, beq_iff_eq] at hpy
      exact (Bool.eq_false_iff.mp hid) ((sameId_iff y.ident p.ident).mpr hpy)
  · unfold getPeerByAddress
    rw [find_of_mem_unique hp (by simp) ?_]
    · rfl
    · intro y hy hpy
      by_contra hne
      obtain ⟨-, -, hep⟩ := pairwise_distinct hwf hp hy hne
      rw [beq_iff_eq] at hpy
      exact hep hpy

theorem lookups_sound (d : Directory) : LookupsSound d := by
  refine ⟨?_, ?_, ?_⟩
  · intro g u e h
    unfold getPeerByName at h
    rw [Option.map_eq_some'] at h
    obtain ⟨p, hfind, hep⟩ := h
    have hmem := List.mem_of_find?_eq_some hfind
    have hpred := List.find?_some hfind
    rw [Bool.and_eq_true, beq_iff_eq, beq_iff_eq] at hpred
    exact ⟨p, hmem, hpred.1, hpred.2, hep⟩
  · intro g u e h
    unfold getPeerById at h
    rw [Option.map_eq_some'] at h
    obtain ⟨p, hfind, hep⟩ := h
    have hmem := List.mem_of_find?_eq_some hfind
    have hpred := List.find?_some hfind
    rw [Bool.and_eq_true, beq_iff_eq, beq_iff_eq] at hpred
    exact ⟨p, hmem, hpred.1, hpred.2, hep⟩
  · intro e i h
    unfold getPeerByAddress at h
    rw [Option.map_eq_some'] at h
    obtain ⟨p, hfind, hip⟩ := h
    have hmem := List.mem_of_find?_eq_some hfind
    have hpred := List.find?_some hfind
    rw [beq_iff_eq] at hpred
    exact ⟨p, hmem, hpred, hip⟩


theorem upsert_length_of_any {d : Directory} {i : Identity} (e : Endpoint)
    (m : List Nat) (hex : (List.any d fun p => sameId p.ident i) = true) :
    (upsert d i e m).length = d.length := by
  unfold upsert
  rw [if_pos hex, List.length_map]

theorem mem_upsert_of_any {d : Directory} {i : Identity} (e : Endpoint)
    (m : List Nat) (hex : (List.any d fun p => sameId p.ident i) = true) :
    (⟨i, e, m, .active⟩ : Peer) ∈ upsert d i e m := by
  unfold upsert
  rw [if_pos hex]
  rw [List.any_eq_true] at hex
  obtain ⟨p, hp, hpi⟩ := hex
  refine List.mem_map.mpr ⟨p, hp, ?_⟩
  rw [if_pos hpi]

/-! ## C1 -/

/-- C1: for every sequence of `upsert`/`removeByIdentity` calls on the Peer
Directory, the three lookup indices stay mutually consistent — every peer of
the directory resolves to its own endpoint by name and by id and to its own
identity by endpoint, every successful lookup is backed by a directory entry,
and the directory never contains two Peers with the same Identity. -/
theorem peer_directory_indices_consistent (d : Directory) (h : Reach d) :
    List.Pairwise (fun p q : Peer => p.ident ≠ q.ident) d ∧
    IndicesConsistent d ∧ LookupsSound d := by
  have hwf := wf_of_reach h
  refine ⟨?_, consistent_of_wf hwf, lookups_sound d⟩
  refine hwf.imp ?_
  intro p q hpq hid
  have htrue : sameId p.ident q.ident = true := by
    rw [sameId_iff, hid]
    exact ⟨rfl, rfl⟩
  rw [hpq.1] at htrue
  exact Bool.false_ne_true htrue

/-- Witness for C1 at the one-peer directory built by a single upsert. -/
theorem peer_directory_indices_consistent_witness :
    getPeerByName wDir "g" "alice" = some wEp ∧
    getPeerById wDir 1 2 = some wEp ∧
    getPeerByAddress wDir wEp = some wIdent := by
  have hreach : Reach wDir := Reach.upsert wIdent wEp [] Reach.empty (by decide)
  have h := (peer_directory_indices_consistent wDir hreach).2.1
  have hmem : (⟨wIdent, wEp, [], .active⟩ : Peer) ∈ wDir := by decide
  exact h _ hmem

/-! ## C9 -/

/-- C9: `upsert` with an identity already present updates the existing entry
in place: the directory size is unchanged and the three lookups afterwards
return the data of the latest upsert. -/
theorem upsert_existing_updates_in_place (d : Directory) (i : Identity)
    (e : Endpoint) (m : List Nat) (h : Reach d) (hf : freshFor d i e)
    (hex : (List.any d fun p => sameId p.ident i) = true) :
    (upsert d i e m).length = d.length ∧
    getPeerByName (upsert d i e m) i.groupName i.userName = some e ∧
    getPeerById (upsert d i e m) i.groupId i.userId = some e ∧
    getPeerByAddress (upsert d i e m) e = some i := by
  have hwf := wf_upsert (wf_of_reach h) hf m
  have hmem := mem_upsert_of_any e m hex
  have hcons := consistent_of_wf hwf _ hmem
  exact ⟨upsert_length_of_any e m hex, hcons.1, hcons.2.1, hcons.2.2⟩

/-- Witness for C9: re-upserting the identity of the one-peer directory with
a new endpoint keeps the size at one and redirects all lookups. -/
theorem upsert_existing_updates_in_place_witness :
    (upsert wDir wIdent wEp2 []).length = wDir.length ∧
    getPeerByName (upsert wDir wIdent wEp2 []) wIdent.groupName wIdent.userName
      = some wEp2 ∧
    getPeerById (upsert wDir wIdent wEp2 []) wIdent.groupId wIdent.userId
      = some wEp2 ∧
    getPeerByAddress (upsert wDir wIdent wEp2 []) wEp2 = some wIdent :=
  upsert_existing_updates_in_place wDir wIdent wEp2 []
    (Reach.upsert wIdent wEp [] Reach.empty (by decide)) (by decide) (by decide)

/-! ## C2 -/

/-- C2 counterexample: the claim that every reachable transition stays on the
connection cycle (self-loop or single forward edge) is false — a handshake
rejection received while Connecting moves the session straight back to
Disconnected, skipping Connected and Disconnecting. -/
theorem session_cycle_claim_false :
    ¬ (∀ c : Client, ClientReach c → ∀ i : Input, FollowsCycle c i) := by
  intro h
  have hr : ClientReach (step initClient (.connect 5 6 7)).next :=
    ClientReach.step initClient (.connect 5 6 7) ClientReach.init
  have hfc := h _ hr (.serverReject .networkError)
  revert hfc
  decide

/-- C2 amended: every transition of the Session State Machine is a self-loop
or the next edge of the cycle Disconnected → Connecting → Connected →
Disconnecting → Disconnected, except that a rejected handshake moves
Connecting directly back to Disconnected. -/
theorem session_transitions_follow_cycle (c : Client) (i : Input) :
    (step c i).next.state = c.state ∨
    (step c i).next.state = cycleNext c.state ∨
    (c.state = .Connecting ∧ (step c i).next.state = .Disconnected) := by
  obtain ⟨st, cr, dr, gr, n⟩ := c
  cases i with
  | connect cb ctx now => cases st <;> simp [step, cycleNext]
  | serverAccept clientId => cases st <;> simp [step, cycleNext]
  | serverReject e => cases st <;> simp [step, cycleNext]
  | disconnect cb ctx now => cases st <;> simp [step, cycleNext]
  | disconnectDone => cases st <;> simp [step, cycleNext]
  | joinGroup cb ctx now => cases st <;> simp [step, cycleNext]
  | leaveGroup cb ctx now => cases st <;> simp [step, cycleNext]
  | groupReply corr r =>
      cases hfind : List.find? (fun q => q.corrId == corr) gr <;>
        cases st <;> simp [step, cycleNext, hfind]

/-! ## C3 -/

/-- C3: a connect call issued while the SessionState is Connecting fails
immediately with AlreadyInProgress, invokes no callback, and leaves the whole
client — in particular the PendingRequest of the original connect attempt,
with its correlation id, callback, context and issue time — unchanged. -/
theorem connect_while_connecting_fails_fast (c : Client) (cb ctx now : Nat)
    (h : c.state = .Connecting) :
    (step c (.connect cb ctx now)).ret = .err .alreadyInProgress ∧
    (step c (.connect cb ctx now)).next = c ∧
    (step c (.connect cb ctx now)).next.connectReq = c.connectReq ∧
    (step c (.connect cb ctx now)).calls = [] := by
  obtain ⟨st, cr, dr, gr, n⟩ := c
  simp only at h
  subst h
  exact ⟨rfl, rfl, rfl, rfl⟩

/-- Witness for C3 at a concrete Connecting client with one outstanding
connect attempt. -/
theorem connect_while_connecting_fails_fast_witness :
    (step wConnecting (.connect 8 8 8)).ret = .err .alreadyInProgress ∧
    (step wConnecting (.connect 8 8 8)).next = wConnecting ∧
    (step wConnecting (.connect 8 8 8)).next.connectReq = wConnecting.connectReq ∧
    (step wConnecting (.connect 8 8 8)).calls = [] :=
  connect_while_connecting_fails_fast wConnecting 8 8 8 rfl

/-! ## C5 -/

/-- C5: a disconnect call in Connected fires the callback of every
outstanding group join/leave request exactly once with an Aborted result (one
invocation per pending request, in order), clears the pending set, enters
Disconnecting, and the session ends at Disconnected once the teardown
completes. -/
theorem disconnect_aborts_pending_group_ops (c : Client) (cb ctx now : Nat)
    (h : c.state = .Connected) :
    (step c (.disconnect cb ctx now)).calls
      = c.groupReqs.map (fun r => (r.cbId, NetResult.failure .aborted)) ∧
    (step c (.disconnect cb ctx now)).next.groupReqs = [] ∧
    (step c (.disconnect cb ctx now)).next.state = .Disconnecting ∧
    (step (step c (.disconnect cb ctx now)).next .disconnectDone).next.state
      = .Disconnected := by
  obtain ⟨st, cr, dr, gr, n⟩ := c
  simp only at h
  subst h
  exact ⟨rfl, rfl, rfl, rfl⟩

/-- Witness for C5, matching the spec scenario: disconnect while three group
operations are pending fires the three callbacks with Aborted and the
session ends at Disconnected. -/
theorem disconnect_aborts_pending_group_ops_witness :
    (step wConnected3 (.disconnect 9 9 9)).calls
      = [(10, NetResult.failure .aborted), (11, NetResult.failure .aborted),
         (12, NetResult.failure .aborted)] ∧
    (step wConnected3 (.disconnect 9 9 9)).next.groupReqs = [] ∧
    (step wConnected3 (.disconnect 9 9 9)).next.state = .Disconnecting ∧
    (step (step wConnected3 (.disconnect 9 9 9)).next .disconnectDone).next.state
      = .Disconnected := by
  have h := disconnect_aborts_pending_group_ops wConnected3 9 9 9 rfl
  exact ⟨h.1.trans rfl, h.2.1, h.2.2.1, h.2.2.2⟩

/-! ## C4 -/

theorem enqueueAll_poll (qs es : List Event) :
    enqueueAll ⟨.poll, qs⟩ es = ⟨.poll, qs ++ es⟩ := by
  induction es generalizing qs with
  | nil => simp [enqueueAll]
  | cons e es ih =>
      show enqueueAll ⟨.poll, qs ++ [e]⟩ es = _
      rw [ih]
      simp

/-- C4: in poll mode, enqueueing N events into a fresh queue and then
draining produces exactly the N enqueued events as handler invocations, in
FIFO order, and leaves the queue empty. -/
theorem pollEvents_drains_fifo (es : List Event) :
    (pollEvents (enqueueAll ⟨.poll, []⟩ es)).2 = es ∧
    (pollEvents (enqueueAll ⟨.poll, []⟩ es)).2.length = es.length ∧
    (pollEvents (enqueueAll ⟨.poll, []⟩ es)).1.queued = [] := by
  rw [enqueueAll_poll]
  exact ⟨by simp [pollEvents], by simp [pollEvents], rfl⟩

/-! ## C6 -/

/-- C6: a sendMessage addressed to a specific (group, user) pair with no
matching peer fails with PeerNotFound and schedules nothing, while a
sendMessage with the group wildcard over zero resolvable peers returns
success with zero deliveries. -/
theorem sendMessage_specific_vs_wildcard (d : Directory) (g u : Int)
    (payload : List Nat) (ts : Nat)
    (hg : g ≠ kAooIdInvalid) (hu : u ≠ kAooIdInvalid)
    (h : ∀ p ∈ d, ¬(p.ident.groupId = g ∧ p.ident.userId = u)) :
    sendMessage d g u payload ts = (.err .peerNotFound, []) ∧
    ∀ u2 payload2 ts2,
      sendMessage ([] : Directory) kAooIdInvalid u2 payload2 ts2 = (.ok, []) := by
  constructor
  · have hgb : (g == kAooIdInvalid) = false := by simpa using hg
    have hub : (u == kAooIdInvalid) = false := by simpa using hu
    have hfind :
        List.find? (fun p => p.ident.groupId == g && p.ident.userId == u) d
          = none := by
      rw [List.find?_eq_none]
      intro p hp
      simp only [Bool.and_eq_true, beq_iff_eq, not_and]
      intro h1 h2
      exact h p hp ⟨h1, h2⟩
    simp [sendMessage, hgb, hub, hfind]
  · intro u2 payload2 ts2
    simp [sendMessage]

/-- Witness for C6: on the empty directory, a specific target fails with
PeerNotFound while the group wildcard succeeds with zero deliveries. -/
theorem sendMessage_specific_vs_wildcard_witness :
    sendMessage ([] : Directory) 1 2 [3] 0 = (.err .peerNotFound, []) ∧
    sendMessage ([] : Directory) kAooIdInvalid 2 [3] 0 = (.ok, []) := by
  have h := sendMessage_specific_vs_wildcard ([] : Directory) 1 2 [3] 0
    (by decide) (by decide) (by simp)
  exact ⟨h.1, h.2 2 [3] 0⟩

/-! ## Request Tracker invariants -/

theorem treach_invariant {t : Tracker} (h : TReach t) :
    (∀ q ∈ t.pending, q.corrId < t.nextCorr) ∧
    List.Pairwise (fun a b : PendingReq => a.corrId ≠ b.corrId) t.pending := by
  induction h with
  | empty => exact ⟨by simp, List.Pairwise.nil⟩
  | registerStep t kind cb ctx now _ ih =>
      obtain ⟨hlt, hnd⟩ := ih
      refine ⟨?_, ?_⟩
      · intro q hq
        simp only [registerReq] at hq
        rcases List.mem_append.mp hq with hql | hql
        · exact Nat.lt_succ_of_lt (hlt q hql)
        · rw [List.mem_singleton] at hql
          subst hql
          exact Nat.lt_succ_self _
      · show List.Pairwise _ (t.pending ++ [⟨t.nextCorr, kind, cb, ctx, now⟩])
        rw [List.pairwise_append]
        refine ⟨hnd, List.pairwise_singleton _ _, ?_⟩
        intro a ha b hb
        rw [List.mem_singleton] at hb
        subst hb
        exact fun hc => absurd (hc ▸ hlt a ha) (lt_irrefl _)
  | resolveStep t corr r _ ih =>
      obtain ⟨hlt, hnd⟩ := ih
      simp only [resolveReq]
      cases hfind : List.find? (fun q => q.corrId == corr) t.pending <;>
        simp only [hfind]
      · exact ⟨hlt, hnd⟩
      · refine ⟨?_, ?_⟩
        · intro q hq
          exact hlt q (List.mem_of_mem_filter hq)
        · exact List.Pairwise.sublist (List.filter_sublist _) hnd
  | expireStep t deadline _ ih =>
      obtain ⟨hlt, hnd⟩ := ih
      refine ⟨?_, ?_⟩
      · intro q hq
        exact hlt q (List.mem_of_mem_filter hq)
      · exact List.Pairwise.sublist (List.filter_sublist _) hnd

theorem count_map_filter_timeout {l : List PendingReq}
    (hnd : List.Pairwise (fun a b : PendingReq => a.corrId ≠ b.corrId) l)
    {q : PendingReq} (hq : q ∈ l) {p : PendingReq → Bool} (hp : p q = true) :
    ((l.filter p).map
        (fun x => (x.corrId, x.cbId, NetResult.failure Err.timeout))).count
      (q.corrId, q.cbId, NetResult.failure Err.timeout) = 1 := by
  induction l with
  | nil => cases hq
  | cons a l ih =>
    rw [List.pairwise_cons] at hnd
    obtain ⟨ha, hnd'⟩ := hnd
    rcases List.mem_cons.mp hq with rfl | hql
    · rw [List.filter_cons_of_pos hp, List.map_cons, List.count_cons_self]
      have hzero :
          ((l.filter p).map
              (fun x => (x.corrId, x.cbId, NetResult.failure Err.timeout))).count
            (q.corrId, q.cbId, NetResult.failure Err.timeout) = 0 := by
        rw [List.count_eq_zero]
        intro hmem
        obtain ⟨x, hxf, hxe⟩ := List.mem_map.mp hmem
        have hxl := List.mem_of_mem_filter hxf
        have : x.corrId = q.corrId := congrArg Prod.fst hxe
        exact ha x hxl this.symm
      rw [hzero]
    · have hne : a.corrId ≠ q.corrId := ha q hql
      by_cases hpa : p a = true
      · rw [List.filter_cons_of_pos hpa, List.map_cons, List.count_cons_of_ne]
        · exact ih hnd' hql
        · intro hc
          exact hne (congrArg Prod.fst hc).symm
      · rw [List.filter_cons_of_neg (Bool.eq_false_iff.mpr hpa ▸ Bool.false_ne_true)]
        exact ih hnd' hql

/-! ## C7 -/

/-- C7: a request filed with the Request Tracker and still pending when the
expiry sweep runs with a deadline past its issue time has its callback
invoked with a Timeout error exactly once, and the PendingRequest is
removed. -/
theorem unresolved_request_times_out (t : Tracker) (q : PendingReq)
    (deadline : Nat) (ht : TReach t) (hq : q ∈ t.pending)
    (hold : q.issuedAt < deadline) :
    ((expireOlderThan t deadline).2).count
        (q.corrId, q.cbId, NetResult.failure Err.timeout) = 1 ∧
    ∀ x ∈ (expireOlderThan t deadline).1.pending, x.corrId ≠ q.corrId := by
  obtain ⟨-, hnd⟩ := treach_invariant ht
  constructor
  · exact count_map_filter_timeout hnd hq (decide_eq_true hold)
  · intro x hx hc
    have hxl := List.mem_of_mem_filter hx
    have hxp : deadline ≤ x.issuedAt := by
      have := List.of_mem_filter hx
      simpa using this
    by_cases hxq : x = q
    · subst hxq
      omega
    · have hsym : Symmetric (fun a b : PendingReq => a.corrId ≠ b.corrId) :=
        fun a b h hc2 => h hc2.symm
      exact List.Pairwise.forall hsym hnd hxl hq hxq hc

/-- Witness for C7: the single request of the concrete tracker, issued at
time 5, is expired by a sweep with deadline 6. -/
theorem unresolved_request_times_out_witness :
    ((expireOlderThan wTracker 6).2).count
        (wReq.corrId, wReq.cbId, NetResult.failure Err.timeout) = 1 ∧
    ∀ x ∈ (expireOlderThan wTracker 6).1.pending, x.corrId ≠ wReq.corrId :=
  unresolved_request_times_out wTracker wReq 6
    (TReach.registerStep ⟨0, []⟩ .groupJoin 10 0 5 TReach.empty)
    (by decide) (by decide)

/-! ## C8 -/

/-- C8: resolving a correlation id with no matching outstanding
PendingRequest is a no-op — no callback fires and the tracker, hence every
other PendingRequest, is left unchanged. -/
theorem resolve_unknown_is_noop (t : Tracker) (corr : Nat) (r : NetResult)
    (h : ∀ q ∈ t.pending, q.corrId ≠ corr) :
    resolveReq t corr r = (t, []) := by
  have hfind : List.find? (fun q => q.corrId == corr) t.pending = none := by
    rw [List.find?_eq_none]
    intro q hq
    simpa using h q hq
  simp [resolveReq, hfind]

/-- Witness for C8: resolving the unknown correlation id 5 on the concrete
one-request tracker changes nothing and fires no callback. -/
theorem resolve_unknown_is_noop_witness :
    resolveReq wTracker 5 (NetResult.success 1) = (wTracker, []) :=
  resolve_unknown_is_noop wTracker 5 (NetResult.success 1) (by decide)

/-! ## C10 -/

/-- C10: `sendCustomRequest(data, cb, context)` returns exactly the result of
`sendRequest` applied to a request of kind `kAooNetRequestCustom` carrying
that data, with the same callback and context and with flags equal to 0, and
performs no other action. -/
theorem sendCustomRequest_refines_sendRequest
    (sr : AooNetRequestCustom → Nat → Nat → Nat → Ret)
    (data : AooDataView) (cb ctx : Nat) :
    sendCustomRequest sr data cb ctx = sendCustomRequestSpec sr data cb ctx ∧
    sendCustomRequest sr data cb ctx
      = sr { rtype := kAooNetRequestCustom, rflags := 0, rdata := data } cb ctx 0 :=
  ⟨rfl, rfl⟩
